import Mathlib

/-
Verification of the triangular life-like cellular automaton core of
main.py: grid construction with orientation-aware, toroidally wrapped
neighbor addressing, the Wolfram-style binary lookup rule, the life-like
birth/survival rule, the synchronous generation step, and the grid
equality check used for convergence detection.

Rendering geometry (cell position, size, triangle points) is
presentation-only state that no behavioral claim depends on; the cell
model below keeps the behavioral fields is_alive, dir and neighbors.
Python exceptions at construction are modeled with Except String.
Python integers are Nat (all quantities involved are non-negative)
except for neighborhood offsets and the direction value, which are Int
as in the source; the Python modulo on a positive modulus agrees with
Int.emod.
-/

namespace TriCA

/-- CellDirection from main.py: UPWARDS has value -1, DOWNWARDS value 1. -/
inductive CellDirection where
  | UPWARDS
  | DOWNWARDS
deriving DecidableEq, Repr

/-- The numeric value of a direction, as in the python enum. -/
def CellDirection.value : CellDirection → Int
  | .UPWARDS => -1
  | .DOWNWARDS => 1

/-- Cell from main.py: alive flag, orientation, and the precomputed
neighbor coordinate list (pairs of grid indices). -/
structure Cell where
  is_alive : Bool
  dir : CellDirection
  neighbors : List (Nat × Nat)
deriving DecidableEq, Repr

instance : Inhabited Cell := ⟨{ is_alive := false, dir := .UPWARDS, neighbors := [] }⟩

/-- The two Rule subclasses of main.py as a closed variant:
WolframRule carries rule_num, LifelikeRule carries the birth and
survival sets (modeled as lists of naturals, membership is what the
python `in` tests). -/
inductive Rule where
  | wolfram (rule_num : Nat)
  | lifelike (birth survival : List Nat)
deriving DecidableEq, Repr

/-- Automaton from main.py: neighborhood template, rule, the cell grid
(cells[i] is the column at x = i), the construction dimensions, and the
turn counter. -/
structure Automaton where
  neighborhood : List (Int × Int)
  rule : Rule
  cells : List (List Cell)
  cell_count_x : Nat
  cell_count_y : Nat
  turn : Nat
deriving DecidableEq, Repr

/-- The lookup automaton.cells[i][j] performed by both rules.  Neighbor
coordinates produced by construction are always in bounds (they are
wrapped), so the default is never hit on constructed automata. -/
def cellAt (automaton : Automaton) (p : Nat × Nat) : Cell :=
  (automaton.cells.getD p.1 []).getD p.2 default

/-- Binary digits of a natural number, least significant first, empty
for 0.  Fuel-based so that it is structural recursion (the fuel n is
enough since the number halves at every digit). -/
def natBitsLEAux : Nat → Nat → List Bool
  | _, 0 => []
  | 0, _ + 1 => []
  | fuel + 1, n + 1 => decide ((n + 1) % 2 = 1) :: natBitsLEAux fuel ((n + 1) / 2)

/-- Binary digits of a natural number, least significant first, [] for 0. -/
def natBitsLE (n : Nat) : List Bool := natBitsLEAux n n

/-- int_to_bool_list from main.py.  The python format string produces
the binary digits of num most significant first with no leading zeros,
except that 0 prints as the single digit 0; the result is then padded
on the left with False up to the requested length (no padding when the
digits already reach or exceed the length, since a python list times a
negative number is empty). -/
def int_to_bool_list (num length : Nat) : List Bool :=
  let ret := if num = 0 then [false] else (natBitsLE num).reverse
  List.replicate (length - ret.length) false ++ ret

/-- bool_list_to_int from main.py: parse the list as a binary numeral,
first element most significant.  (Python raises on the empty list; every
use in the source passes the neighbor-state list, nonempty for any
nonempty neighborhood, and the claims below carry that hypothesis.) -/
def bool_list_to_int (lst : List Bool) : Nat :=
  lst.foldl (fun acc b => 2 * acc + (if b then 1 else 0)) 0

/-- Python negative indexing lst[-idx] as used in
WolframRule.get_new_state: for idx = 0 this is lst[0] (the FIRST
element), for idx >= 1 it is the element idx positions from the end. -/
def neg_index (lst : List Bool) (idx : Nat) : Bool :=
  if idx = 0 then lst.getD 0 false else lst.getD (lst.length - idx) false

/-- WolframRule.get_new_state from main.py:
int_to_bool_list(rule_num, 2**len(cell.neighbors))[-bool_list_to_int(
[automaton.cells[i][j].is_alive for i, j in cell.neighbors])]. -/
def WolframRule.get_new_state (rule_num : Nat) (automaton : Automaton) (cell : Cell) : Bool :=
  neg_index (int_to_bool_list rule_num (2 ^ cell.neighbors.length))
    (bool_list_to_int (cell.neighbors.map (fun p => (cellAt automaton p).is_alive)))

/-- LifelikeRule.get_new_state from main.py: count alive neighbors,
then `not alive and count in birth or alive and count in survival`
(python `and` binds tighter than `or`). -/
def LifelikeRule.get_new_state (birth survival : List Nat) (automaton : Automaton) (cell : Cell) : Bool :=
  let alive_count := cell.neighbors.countP (fun p => (cellAt automaton p).is_alive)
  if (!cell.is_alive && birth.contains alive_count) || (cell.is_alive && survival.contains alive_count)
  then true else false

/-- Dynamic dispatch of rule.get_new_state(automaton, cell). -/
def Rule.get_new_state : Rule → Automaton → Cell → Bool
  | .wolfram rule_num, automaton, cell => WolframRule.get_new_state rule_num automaton cell
  | .lifelike birth survival, automaton, cell => LifelikeRule.get_new_state birth survival automaton cell

/-- One column of the new grid built by Automaton.step: the copied cell
at row j gets is_alive reassigned from the rule evaluated on the
pre-step automaton when j < m (m = len(cells[0]), the bound of the
update loop), and stays a plain copy otherwise. -/
def stepColFrom (automaton : Automaton) (m : Nat) : Nat → List Cell → List Cell
  | _, [] => []
  | j, cell :: rest =>
    (if j < m then { cell with is_alive := Rule.get_new_state automaton.rule automaton cell }
     else cell)
      :: stepColFrom automaton m (j + 1) rest

/-- Automaton.step from main.py: copy the grid, write each new state
computed from the OLD grid (self is unchanged during the loop),
accumulate the alive count over the updated positions (i ranges over
all columns, j over range(len(cells[0]))), then swap the grid in and
increment turn.  Returns the new automaton and the returned count. -/
def Automaton.step (automaton : Automaton) : Automaton × Nat :=
  let m := (automaton.cells.getD 0 []).length
  let new_cells := automaton.cells.map (fun col => stepColFrom automaton m 0 col)
  let alive_count := (new_cells.map (fun col => ((col.take m).filter (fun c => c.is_alive)).length)).sum
  ({ automaton with cells := new_cells, turn := automaton.turn + 1 }, alive_count)

/-- The python modulo for grid wrapping: v % m with m positive, always
in [0, m). -/
def wrap_coord (v : Int) (m : Nat) : Nat := (v.emod (m : Int)).toNat

/-- Automaton.__init__ from main.py, restricted to the behavioral
parameters (the pixel-geometry arguments only feed the omitted
rendering fields).  Checks that both cell counts are even (raising
ValueError otherwise), then builds the grid: cell (i, j) points UPWARDS
iff (i + j) % 2 == 0, and its neighbor list maps the template, offset
(dx, dy) landing at ((i + dx) % cell_count_x,
(j + (-dir.value) * dy) % cell_count_y).  Cells start dead.
No validation of the rule is performed. -/
def Automaton.init (neighborhood : List (Int × Int)) (rule : Rule)
    (cell_count_x cell_count_y : Nat) : Except String Automaton :=
  if cell_count_x % 2 ≠ 0 then .error "cell_count_x should be even"
  else if cell_count_y % 2 ≠ 0 then .error "cell_count_y should be even"
  else .ok {
    neighborhood := neighborhood
    rule := rule
    cells := (List.range cell_count_x).map (fun (i : Nat) =>
      (List.range cell_count_y).map (fun (j : Nat) =>
        let dir := if (i + j) % 2 = 0 then CellDirection.UPWARDS else CellDirection.DOWNWARDS
        { is_alive := false
          dir := dir
          neighbors := neighborhood.map (fun nb =>
            (wrap_coord ((i : Int) + nb.1) cell_count_x,
             wrap_coord ((j : Int) + (-(dir.value)) * nb.2) cell_count_y)) }))
    cell_count_x := cell_count_x
    cell_count_y := cell_count_y
    turn := 0 }

/-- Number of alive cells of a grid. -/
def countAlive (cells : List (List Cell)) : Nat :=
  (cells.map (fun col => (col.filter (fun c => c.is_alive)).length)).sum

/-- Cell.__eq__ from main.py applied to another Cell: compares only the
alive flags (orientation, position and neighbors are ignored). -/
def cellEq (c1 c2 : Cell) : Bool := c1.is_alive == c2.is_alive

/-- Python list equality with a custom element comparison: equal
lengths and pairwise equal elements. -/
def listEqBy (f : α → α → Bool) : List α → List α → Bool
  | [], [] => true
  | x :: xs, y :: ys => f x y && listEqBy f xs ys
  | _, _ => false

/-- The grid comparison old_cells == automaton.cells performed in
main_loop: python list equality on the outer list, list equality on
each column, Cell.__eq__ on each cell. -/
def cellsEq (g1 g2 : List (List Cell)) : Bool := listEqBy (listEqBy cellEq) g1 g2

/-- The search-mode convergence test of main_loop: snapshot the cell
grid, perform one step, and compare the pre-step grid with the
post-step grid. -/
def search_detects (automaton : Automaton) : Bool :=
  cellsEq automaton.cells ((Automaton.step automaton).1.cells)

/-- The neighborhood template used in main (and in the spec's toroidal
wrap scenario). -/
def sampleTemplate : List (Int × Int) := [(-1, 0), (0, 1), (1, 0)]

/-- The 4x4 automaton of the toroidal-wrap scenario, extracted from the
constructor (the fallback branch is unreachable: 4 is even). -/
def sample4 : Automaton :=
  match Automaton.init sampleTemplate (.lifelike [] []) 4 4 with
  | .ok a => a
  | .error _ =>
    { neighborhood := [], rule := .lifelike [] [], cells := [],
      cell_count_x := 0, cell_count_y := 0, turn := 0 }

/-- One-cell automaton whose single cell is its own unique neighbor
(offset (0, 0) wrapped on a 1 x 1 grid); concrete input for the
Wolfram-rule claims. -/
def selfLoopAuto (r : Rule) (alive : Bool) : Automaton :=
  { neighborhood := [(0, 0)], rule := r,
    cells := [[{ is_alive := alive, dir := .UPWARDS, neighbors := [(0, 0)] }]],
    cell_count_x := 1, cell_count_y := 1, turn := 0 }

/-- The cell of selfLoopAuto, with a chosen own state. -/
def selfLoopCell (alive : Bool) : Cell :=
  { is_alive := alive, dir := .UPWARDS, neighbors := [(0, 0)] }

/-- A one-column, two-row automaton where each cell's unique neighbor is
the other cell; concrete input for the step and independence claims. -/
def pairAuto (r : Rule) (alive0 alive1 : Bool) : Automaton :=
  { neighborhood := [(0, 1)], rule := r,
    cells := [[{ is_alive := alive0, dir := .UPWARDS, neighbors := [(0, 1)] },
               { is_alive := alive1, dir := .DOWNWARDS, neighbors := [(0, 0)] }]],
    cell_count_x := 1, cell_count_y := 2, turn := 0 }

/- ------------------------------------------------------------------
Helper lemmas about the binary conversion functions.
------------------------------------------------------------------ -/

theorem natBitsLEAux_fuel :
    ∀ fuel1 : Nat, ∀ fuel2 n : Nat, n ≤ fuel1 → n ≤ fuel2 →
      natBitsLEAux fuel1 n = natBitsLEAux fuel2 n := by
  intro fuel1
  induction fuel1 with
  | zero =>
    intro fuel2 n h1 _
    have hn : n = 0 := Nat.le_zero.mp h1
    subst hn
    cases fuel2 <;> rfl
  | succ f ih =>
    intro fuel2 n h1 h2
    match n, fuel2 with
    | 0, 0 => rfl
    | 0, f2 + 1 => rfl
    | m + 1, 0 => omega
    | m + 1, f2 + 1 =>
      simp only [natBitsLEAux]
      congr 1
      exact ih f2 ((m + 1) / 2) (by omega) (by omega)

theorem natBitsLE_eq_cons (n : Nat) (h : n ≠ 0) :
    natBitsLE n = decide (n % 2 = 1) :: natBitsLE (n / 2) := by
  obtain ⟨m, rfl⟩ : ∃ m, n = m + 1 := ⟨n - 1, by omega⟩
  show natBitsLEAux (m + 1) (m + 1) = _
  simp only [natBitsLEAux]
  congr 1
  exact natBitsLEAux_fuel m ((m + 1) / 2) ((m + 1) / 2) (by omega) (le_refl _)

theorem natBitsLE_getD (n : Nat) : ∀ i, (natBitsLE n).getD i false = n.testBit i := by
  induction n using Nat.strong_induction_on with
  | _ n ih =>
    intro i
    by_cases h : n = 0
    · subst h
      simp [natBitsLE, natBitsLEAux, Nat.zero_testBit]
    · rw [natBitsLE_eq_cons n h]
      cases i with
      | zero => simp [List.getD_cons_zero, Nat.testBit_zero]
      | succ i =>
        rw [List.getD_cons_succ,
          ih (n / 2) (Nat.div_lt_self (Nat.pos_of_ne_zero h) one_lt_two) i,
          Nat.testBit_succ]

theorem lt_two_pow_natBitsLE_length (n : Nat) : n < 2 ^ (natBitsLE n).length := by
  induction n using Nat.strong_induction_on with
  | _ n ih =>
    by_cases h : n = 0
    · subst h; simp [natBitsLE, natBitsLEAux]
    · rw [natBitsLE_eq_cons n h]
      have hd := ih (n / 2) (Nat.div_lt_self (Nat.pos_of_ne_zero h) one_lt_two)
      simp only [List.length_cons, pow_succ]
      omega

theorem natBitsLE_length_le (n : Nat) : ∀ L, n < 2 ^ L → (natBitsLE n).length ≤ L := by
  induction n using Nat.strong_induction_on with
  | _ n ih =>
    intro L h
    by_cases hn : n = 0
    · subst hn; simp [natBitsLE, natBitsLEAux]
    · rw [natBitsLE_eq_cons n hn]
      cases L with
      | zero => simp at h; omega
      | succ L =>
        have hd : n / 2 < 2 ^ L := by
          rw [pow_succ] at h; omega
        have := ih (n / 2) (Nat.div_lt_self (Nat.pos_of_ne_zero hn) one_lt_two) L hd
        simp only [List.length_cons]
        omega

theorem bool_list_to_int_foldl_acc (lst : List Bool) : ∀ acc : Nat,
    lst.foldl (fun acc b => 2 * acc + (if b then 1 else 0)) acc
      = acc * 2 ^ lst.length + bool_list_to_int lst := by
  induction lst with
  | nil => intro acc; simp [bool_list_to_int]
  | cons b t ih =>
    intro acc
    simp only [List.foldl_cons, bool_list_to_int, List.length_cons]
    rw [ih (2 * acc + (if b then 1 else 0)), ih (2 * 0 + (if b then 1 else 0)), pow_succ]
    ring

theorem bool_list_to_int_lt (lst : List Bool) : bool_list_to_int lst < 2 ^ lst.length := by
  induction lst with
  | nil => simp [bool_list_to_int]
  | cons b t ih =>
    have h1 : bool_list_to_int (b :: t)
        = (2 * 0 + (if b then 1 else 0)) * 2 ^ t.length + bool_list_to_int t := by
      simp only [bool_list_to_int, List.foldl_cons]
      exact bool_list_to_int_foldl_acc t _
    rw [h1, List.length_cons, pow_succ]
    cases b <;> simp <;> omega

theorem bool_list_to_int_replicate_false (p : Nat) (xs : List Bool) :
    bool_list_to_int (List.replicate p false ++ xs) = bool_list_to_int xs := by
  induction p with
  | zero => simp
  | succ p ih =>
    simpa [List.replicate_succ, bool_list_to_int, List.foldl_cons] using ih

theorem bool_list_to_int_concat (xs : List Bool) (b : Bool) :
    bool_list_to_int (xs ++ [b]) = 2 * bool_list_to_int xs + (if b then 1 else 0) := by
  simp [bool_list_to_int, List.foldl_append]

theorem bool_list_to_int_reverse_natBitsLE (n : Nat) :
    bool_list_to_int (natBitsLE n).reverse = n := by
  induction n using Nat.strong_induction_on with
  | _ n ih =>
    by_cases h : n = 0
    · subst h; simp [natBitsLE, natBitsLEAux, bool_list_to_int]
    · rw [natBitsLE_eq_cons n h]
      simp only [List.reverse_cons]
      rw [bool_list_to_int_concat,
        ih (n / 2) (Nat.div_lt_self (Nat.pos_of_ne_zero h) one_lt_two)]
      rcases Nat.mod_two_eq_zero_or_one n with hm | hm <;> simp [hm] <;> omega

theorem int_to_bool_list_length (n L : Nat) (hL : 0 < L) (hn : n < 2 ^ L) :
    (int_to_bool_list n L).length = L := by
  by_cases h : n = 0
  · subst h
    simp [int_to_bool_list]
    omega
  · have hr : (natBitsLE n).length ≤ L := natBitsLE_length_le n L hn
    simp only [int_to_bool_list, if_neg h, List.length_append, List.length_replicate,
      List.length_reverse]
    omega

theorem int_to_bool_list_zero_all_false (L : Nat) :
    ∀ b ∈ int_to_bool_list 0 L, b = false := by
  intro b hb
  simp [int_to_bool_list, List.mem_replicate] at hb
  rcases hb with hb | hb
  · exact hb.2
  · exact hb

theorem getD_all_false (lst : List Bool) (k : Nat) (h : ∀ b ∈ lst, b = false) :
    lst.getD k false = false := by
  by_cases hk : k < lst.length
  · rw [List.getD_eq_getElem _ _ hk]
    exact h _ (List.getElem_mem hk)
  · exact List.getD_eq_default _ _ (by omega)

theorem int_to_bool_list_getD (n L p : Nat) (hn : n < 2 ^ L) (hp : p < L) :
    (int_to_bool_list n L).getD p false = n.testBit (L - 1 - p) := by
  by_cases h : n = 0
  · subst h
    rw [Nat.zero_testBit]
    exact getD_all_false _ _ (int_to_bool_list_zero_all_false L)
  · have hr : (natBitsLE n).length ≤ L := natBitsLE_length_le n L hn
    have hlen : (int_to_bool_list n L).length = L :=
      int_to_bool_list_length n L (by omega) hn
    rw [List.getD_eq_getElem _ _ (by rw [hlen]; exact hp)]
    simp only [int_to_bool_list, if_neg h]
    by_cases hcase : p < L - (natBitsLE n).length
    · rw [List.getElem_append_left
        (by simp only [List.length_replicate, List.length_reverse]; omega)]
      rw [List.getElem_replicate]
      symm
      apply Nat.testBit_lt_two_pow
      calc n < 2 ^ (natBitsLE n).length := lt_two_pow_natBitsLE_length n
        _ ≤ 2 ^ (L - 1 - p) := Nat.pow_le_pow_right (by omega) (by omega)
    · rw [List.getElem_append_right
        (by simp only [List.length_replicate, List.length_reverse]; omega)]
      rw [List.getElem_reverse]
      have hq : (natBitsLE n).length - 1 -
          (p - (List.replicate (L - (natBitsLE n).reverse.length) false).length)
            < (natBitsLE n).length := by
        simp only [List.length_replicate, List.length_reverse]
        omega
      rw [← List.getD_eq_getElem _ false hq, natBitsLE_getD]
      congr 1
      simp only [List.length_replicate, List.length_reverse]
      omega

theorem neg_index_all_false (lst : List Bool) (idx : Nat) (h : ∀ b ∈ lst, b = false) :
    neg_index lst idx = false := by
  unfold neg_index
  split
  · exact getD_all_false _ _ h
  · exact getD_all_false _ _ h

/-- The Wolfram rule evaluation in terms of the bits of rule_num: the
neighbor states, first neighbor most significant, form the index n; the
result is bit (n - 1) of rule_num for n >= 1 and the top bit
(bit 2^k - 1) for n = 0, because the python expression indexes the
most-significant-first bit list with -n and -0 is 0. -/
theorem wolfram_eval_testBit (rule_num k : Nat) (automaton : Automaton) (cell : Cell)
    (hlen : cell.neighbors.length = k) (hrn : rule_num < 2 ^ 2 ^ k) :
    WolframRule.get_new_state rule_num automaton cell =
      (if bool_list_to_int (cell.neighbors.map (fun p => (cellAt automaton p).is_alive)) = 0
       then rule_num.testBit (2 ^ k - 1)
       else rule_num.testBit
         (bool_list_to_int (cell.neighbors.map (fun p => (cellAt automaton p).is_alive)) - 1)) := by
  have hL : 0 < 2 ^ k := Nat.pos_pow_of_pos k (by omega)
  have hidx : bool_list_to_int (cell.neighbors.map (fun p => (cellAt automaton p).is_alive))
      < 2 ^ k := by
    have := bool_list_to_int_lt (cell.neighbors.map (fun p => (cellAt automaton p).is_alive))
    rwa [List.length_map, hlen] at this
  have hlst : (int_to_bool_list rule_num (2 ^ cell.neighbors.length)).length = 2 ^ k := by
    rw [hlen]
    exact int_to_bool_list_length _ _ hL hrn
  unfold WolframRule.get_new_state neg_index
  split
  · have := int_to_bool_list_getD rule_num (2 ^ k) 0 hrn hL
    rw [hlen]
    simpa using this
  · rename_i h0
    rw [hlst, hlen]
    have hp : 2 ^ k
        - bool_list_to_int (cell.neighbors.map (fun p => (cellAt automaton p).is_alive))
        < 2 ^ k := by omega
    rw [int_to_bool_list_getD rule_num (2 ^ k) _ hrn hp]
    congr 1
    omega

/- ------------------------------------------------------------------
Helper lemmas about the step and the grids.
------------------------------------------------------------------ -/

theorem stepColFrom_length (automaton : Automaton) (m : Nat) :
    ∀ (j : Nat) (col : List Cell), (stepColFrom automaton m j col).length = col.length := by
  intro j col
  induction col generalizing j with
  | nil => rfl
  | cons c rest ih => simp [stepColFrom, ih]

theorem stepColFrom_getD (automaton : Automaton) (m : Nat) :
    ∀ (col : List Cell) (j0 j : Nat), j < col.length →
      (stepColFrom automaton m j0 col).getD j default =
        (if j0 + j < m
         then { col.getD j default with
                is_alive := Rule.get_new_state automaton.rule automaton (col.getD j default) }
         else col.getD j default) := by
  intro col
  induction col with
  | nil => intro j0 j h; simp at h
  | cons c rest ih =>
    intro j0 j h
    cases j with
    | zero => simp [stepColFrom, List.getD_cons_zero]
    | succ j =>
      simp only [stepColFrom, List.getD_cons_succ]
      rw [ih (j0 + 1) j (by simpa using h)]
      have harith : j0 + 1 + j = j0 + (j + 1) := by omega
      rw [harith]

theorem mem_stepColFrom_take (automaton : Automaton) (m : Nat) :
    ∀ (col : List Cell) (j0 : Nat) (c : Cell),
      c ∈ (stepColFrom automaton m j0 col).take (m - j0) →
      ∃ c0 ∈ col,
        c = { c0 with is_alive := Rule.get_new_state automaton.rule automaton c0 } := by
  intro col
  induction col with
  | nil => intro j0 c hc; simp [stepColFrom] at hc
  | cons c0 rest ih =>
    intro j0 c hc
    rcases Nat.eq_zero_or_pos (m - j0) with h0 | hpos
    · rw [h0] at hc; simp at hc
    · have hj0 : j0 < m := by omega
      simp only [stepColFrom] at hc
      obtain ⟨w, hw⟩ : ∃ w, m - j0 = w + 1 := ⟨m - j0 - 1, by omega⟩
      rw [hw, List.take_succ_cons] at hc
      rcases List.mem_cons.mp hc with hc | hc
      · refine ⟨c0, List.mem_cons_self _ _, ?_⟩
        rw [hc, if_pos hj0]
      · have hw2 : w = m - (j0 + 1) := by omega
        rw [hw2] at hc
        obtain ⟨d, hd, hdc⟩ := ih (j0 + 1) c hc
        exact ⟨d, List.mem_cons_of_mem _ hd, hdc⟩

theorem getD_map_cols (f : List Cell → List Cell) (l : List (List Cell)) (i : Nat)
    (h : i < l.length) :
    (l.map f).getD i [] = f (l.getD i []) := by
  rw [List.getD_eq_getElem _ _ (by simpa using h), List.getD_eq_getElem _ _ h,
    List.getElem_map]

theorem getD_range_map {β : Type} (f : Nat → β) (d : β) (n i : Nat) (h : i < n) :
    ((List.range n).map f).getD i d = f i := by
  rw [List.getD_eq_getElem _ _ (by simpa using h), List.getElem_map, List.getElem_range]

theorem getD_mem (l : List (List Cell)) (i : Nat) (h : i < l.length) :
    l.getD i [] ∈ l := by
  rw [List.getD_eq_getElem _ _ h]
  exact List.getElem_mem h

theorem sum_map_const_of {α : Type} (l : List α) (c : Nat) (f : α → Nat)
    (h : ∀ x ∈ l, f x = c) :
    (l.map f).sum = l.length * c := by
  induction l with
  | nil => simp
  | cons x xs ih =>
    simp only [List.map_cons, List.sum_cons, List.length_cons]
    rw [h x (List.mem_cons_self _ _), ih (fun y hy => h y (List.mem_cons_of_mem _ hy))]
    ring

theorem listEqBy_iff {α : Type} (f : α → α → Bool) (d : α) :
    ∀ xs ys : List α, listEqBy f xs ys = true ↔
      (xs.length = ys.length ∧ ∀ i, i < xs.length → f (xs.getD i d) (ys.getD i d) = true) := by
  intro xs
  induction xs with
  | nil => intro ys; cases ys <;> simp [listEqBy]
  | cons x xs ih =>
    intro ys
    cases ys with
    | nil => simp [listEqBy]
    | cons y ys =>
      simp only [listEqBy, Bool.and_eq_true, List.length_cons]
      rw [ih ys]
      constructor
      · rintro ⟨hf, hlen, hall⟩
        refine ⟨by omega, ?_⟩
        intro i hi
        cases i with
        | zero => simpa using hf
        | succ i => simpa using hall i (by omega)
      · rintro ⟨hlen, hall⟩
        refine ⟨by simpa using hall 0 (by omega), by omega, ?_⟩
        intro i hi
        simpa using hall (i + 1) (by omega)

theorem cellsEq_iff (g1 g2 : List (List Cell)) :
    cellsEq g1 g2 = true ↔
      (g1.length = g2.length ∧ ∀ i, i < g1.length →
        ((g1.getD i []).length = (g2.getD i []).length ∧
         ∀ j, j < (g1.getD i []).length →
           ((g1.getD i []).getD j default).is_alive
             = ((g2.getD i []).getD j default).is_alive)) := by
  unfold cellsEq
  rw [listEqBy_iff (listEqBy cellEq) []]
  apply and_congr_right
  intro _
  apply forall_congr'
  intro i
  apply imp_congr_right
  intro _
  rw [listEqBy_iff cellEq default]
  apply and_congr_right
  intro _
  apply forall_congr'
  intro j
  apply imp_congr_right
  intro _
  unfold cellEq
  exact beq_iff_eq

/- ------------------------------------------------------------------
Claim theorems.
------------------------------------------------------------------ -/

/-- Claim C1: step computes every new state by evaluating the rule
against the pre-step automaton (the right-hand side of the per-cell
equation mentions only the old grid), swaps in the new grid, increments
turn by exactly 1, and returns the number of alive cells of the new
generation. -/
theorem step_synchronous_semantics (a : Automaton)
    (hrect : ∀ col ∈ a.cells, col.length = (a.cells.getD 0 []).length) :
    ((Automaton.step a).1.turn = a.turn + 1)
  ∧ ((Automaton.step a).1.cells.length = a.cells.length)
  ∧ (∀ i, i < a.cells.length → ∀ j, j < (a.cells.getD 0 []).length →
      (cellAt (Automaton.step a).1 (i, j)).is_alive
        = Rule.get_new_state a.rule a (cellAt a (i, j)))
  ∧ ((Automaton.step a).2 = countAlive (Automaton.step a).1.cells) := by
  refine ⟨rfl, by simp [Automaton.step], ?_, ?_⟩
  · intro i hi j hj
    unfold cellAt
    simp only [Automaton.step]
    rw [getD_map_cols _ _ i hi]
    have hcol : (a.cells.getD i []) ∈ a.cells := getD_mem a.cells i hi
    have hlen : j < (a.cells.getD i []).length := by rw [hrect _ hcol]; exact hj
    rw [stepColFrom_getD a _ _ 0 j hlen, if_pos (by omega)]
  · simp only [Automaton.step, countAlive]
    congr 1
    apply List.map_congr_left
    intro col2 hcol2
    rw [List.mem_map] at hcol2
    obtain ⟨col, hcol, rfl⟩ := hcol2
    rw [List.take_of_length_le (by rw [stepColFrom_length, hrect col hcol])]

/-- Claim C1 witness at a concrete two-cell automaton. -/
theorem step_synchronous_semantics_witness :
    ((Automaton.step (pairAuto (.lifelike [1] []) true false)).1.turn
        = (pairAuto (.lifelike [1] []) true false).turn + 1)
  ∧ (cellAt (Automaton.step (pairAuto (.lifelike [1] []) true false)).1 (0, 1)).is_alive
      = Rule.get_new_state (pairAuto (.lifelike [1] []) true false).rule
          (pairAuto (.lifelike [1] []) true false)
          (cellAt (pairAuto (.lifelike [1] []) true false) (0, 1)) := by
  have h := step_synchronous_semantics (pairAuto (.lifelike [1] []) true false) (by decide)
  exact ⟨h.1, h.2.2.1 0 (by decide) 1 (by decide)⟩

/-- Claim C2, counterexample: with one neighbor (k = 1) and rule number
2 (binary 10), an alive neighbor packs to index 1; the claim predicts
bit 1 of the expansion (true), but the code returns false, because the
python expression indexes the most-significant-first bit list with -1,
selecting the LAST element (bit 0). -/
theorem wolfram_index_claim_refuted :
    bool_list_to_int ((selfLoopCell true).neighbors.map
        (fun p => (cellAt (selfLoopAuto (.wolfram 2) true) p).is_alive)) = 1
  ∧ Nat.testBit 2 1 = true
  ∧ WolframRule.get_new_state 2 (selfLoopAuto (.wolfram 2) true) (selfLoopCell true)
      = false := by
  decide

/-- Claim C2, amended: the neighbor states are packed
most-significant-bit-first into an index n, but the lookup into the
2^k-bit expansion of rule_number is shifted: index n >= 1 selects bit
n - 1 (bit 0 = least significant), and index 0 selects the
most-significant bit, bit 2^k - 1. -/
theorem wolfram_index_semantics (rule_num k : Nat) (automaton : Automaton) (cell : Cell)
    ( _hk : 0 < k) (hlen : cell.neighbors.length = k) (hrn : rule_num < 2 ^ 2 ^ k) :
    WolframRule.get_new_state rule_num automaton cell =
      (if bool_list_to_int (cell.neighbors.map (fun p => (cellAt automaton p).is_alive)) = 0
       then rule_num.testBit (2 ^ k - 1)
       else rule_num.testBit
         (bool_list_to_int (cell.neighbors.map (fun p => (cellAt automaton p).is_alive)) - 1)) :=
  wolfram_eval_testBit rule_num k automaton cell hlen hrn

/-- Claim C2 witness: dead neighbor packs to index 0 and rule 2 then
yields its most significant bit, true. -/
theorem wolfram_index_semantics_witness :
    WolframRule.get_new_state 2 (selfLoopAuto (.wolfram 2) false) (selfLoopCell false)
      = true := by
  have h := wolfram_index_semantics 2 1 (selfLoopAuto (.wolfram 2) false)
    (selfLoopCell false) (by decide) (by decide) (by decide)
  rw [h]
  decide

/-- Claim C3, counterexample: with the 3-neighbor template, rule number
256 = 2^(2^3) is out of range, yet construction succeeds: no error of
any kind is raised for an out-of-range rule number. -/
theorem construction_accepts_out_of_range_rule :
    256 = 2 ^ 2 ^ 3
  ∧ (Automaton.init sampleTemplate (.wolfram 256) 2 2).isOk = true :=
  ⟨by norm_num, by decide⟩

/-- Claim C3, amended: construction performs no validation of the
Wolfram rule number: for any template and any rule_num, in particular
any out-of-range one, construction succeeds whenever both dimensions
are even. -/
theorem construction_no_rule_validation (t : List (Int × Int)) (rule_num cx cy : Nat)
    (hx : cx % 2 = 0) (hy : cy % 2 = 0) :
    (Automaton.init t (.wolfram rule_num) cx cy).isOk = true := by
  unfold Automaton.init
  rw [if_neg (by omega), if_neg (by omega)]
  rfl

/-- Claim C3 amended witness. -/
theorem construction_no_rule_validation_witness :
    (Automaton.init sampleTemplate (.wolfram 999) 2 2).isOk = true :=
  construction_no_rule_validation sampleTemplate 999 2 2 rfl rfl

/-- Claim C4: in a constructed automaton the cell at (x, y) points
UPWARDS iff (x + y) is even, and its neighbor list is the template in
order, the vertical offset multiplied by +1 for UPWARDS cells and -1
for DOWNWARDS cells, both axes wrapped modulo the dimensions. -/
theorem grid_orientation_and_neighbors (t : List (Int × Int)) (r : Rule) (cx cy : Nat)
    (a : Automaton) (ha : Automaton.init t r cx cy = .ok a)
    (i j : Nat) (hi : i < cx) (hj : j < cy) :
    ((cellAt a (i, j)).dir
        = if (i + j) % 2 = 0 then CellDirection.UPWARDS else CellDirection.DOWNWARDS)
  ∧ (cellAt a (i, j)).neighbors = t.map (fun nb =>
      (wrap_coord ((i : Int) + nb.1) cx,
       wrap_coord ((j : Int) + (if (i + j) % 2 = 0 then 1 else -1) * nb.2) cy)) := by
  unfold Automaton.init at ha
  by_cases hx : cx % 2 ≠ 0
  · rw [if_pos hx] at ha; exact absurd ha (by simp)
  by_cases hy : cy % 2 ≠ 0
  · rw [if_neg hx, if_pos hy] at ha; exact absurd ha (by simp)
  rw [if_neg hx, if_neg hy] at ha
  injection ha with ha2
  subst ha2
  unfold cellAt
  rw [getD_range_map _ ([] : List Cell) cx i hi, getD_range_map _ (default : Cell) cy j hj]
  by_cases hp : (i + j) % 2 = 0 <;> simp [hp, CellDirection.value]

/-- Claim C4 witness: the toroidal-wrap scenario of the spec, on the
4 x 4 grid with the standard template. -/
theorem grid_orientation_and_neighbors_witness :
    (cellAt sample4 (0, 0)).dir = CellDirection.UPWARDS
  ∧ (cellAt sample4 (0, 0)).neighbors = [(3, 0), (0, 1), (1, 0)] := by
  have h := grid_orientation_and_neighbors sampleTemplate (.lifelike [] []) 4 4 sample4
    (by rfl) 0 0 (by decide) (by decide)
  refine ⟨?_, ?_⟩
  · rw [h.1]; decide
  · rw [h.2]; decide

/-- Claim C5: the life-like rule returns alive exactly when the cell is
dead and its alive-neighbor count lies in the birth set, or the cell is
alive and the count lies in the survival set; in every other case it
returns dead. -/
theorem lifelike_birth_survival (birth survival : List Nat) (automaton : Automaton)
    (cell : Cell) :
    LifelikeRule.get_new_state birth survival automaton cell = true ↔
      ((cell.is_alive = false ∧
          cell.neighbors.countP (fun p => (cellAt automaton p).is_alive) ∈ birth)
       ∨ (cell.is_alive = true ∧
          cell.neighbors.countP (fun p => (cellAt automaton p).is_alive) ∈ survival)) := by
  cases hA : cell.is_alive <;>
    simp [LifelikeRule.get_new_state, hA, List.contains, List.elem_iff]

/-- Claim C6: odd width or height fails construction; even dimensions
of at least 2 succeed, and then every cell has exactly as many
neighbors as the template has offsets. -/
theorem construction_parity_check :
    (∀ (t : List (Int × Int)) (r : Rule) (cx cy : Nat), cx % 2 = 1 ∨ cy % 2 = 1 →
      (Automaton.init t r cx cy).isOk = false)
  ∧ (∀ (t : List (Int × Int)) (r : Rule) (cx cy : Nat),
      cx % 2 = 0 → cy % 2 = 0 → 2 ≤ cx → 2 ≤ cy →
      (Automaton.init t r cx cy).isOk = true
    ∧ ∀ a, Automaton.init t r cx cy = .ok a →
        ∀ col ∈ a.cells, ∀ cell ∈ col, cell.neighbors.length = t.length) := by
  constructor
  · intro t r cx cy h
    unfold Automaton.init
    by_cases hx : cx % 2 ≠ 0
    · rw [if_pos hx]; rfl
    · rw [if_neg hx, if_pos (by omega)]; rfl
  · intro t r cx cy hx hy _ _
    constructor
    · unfold Automaton.init
      rw [if_neg (by omega), if_neg (by omega)]; rfl
    · intro a ha col hcol cell hcell
      unfold Automaton.init at ha
      rw [if_neg (by omega), if_neg (by omega)] at ha
      injection ha with ha2
      subst ha2
      rw [List.mem_map] at hcol
      obtain ⟨i, _, rfl⟩ := hcol
      rw [List.mem_map] at hcell
      obtain ⟨j, _, rfl⟩ := hcell
      simp

/-- Claim C6 witness: 3 x 4 fails, 2 x 2 succeeds. -/
theorem construction_parity_check_witness :
    (Automaton.init sampleTemplate (.lifelike [] []) 3 4).isOk = false
  ∧ (Automaton.init sampleTemplate (.lifelike [] []) 2 2).isOk = true :=
  ⟨construction_parity_check.1 sampleTemplate (.lifelike [] []) 3 4 (Or.inl rfl),
   (construction_parity_check.2 sampleTemplate (.lifelike [] []) 2 2 rfl rfl
     (by decide) (by decide)).1⟩

/-- Claim C7: Wolfram rule 0 evaluates every cell to dead, so one step
returns population 0; rule 2^(2^k) - 1 (k the per-cell neighbor count)
evaluates every cell to alive, so one step returns width * height. -/
theorem wolfram_degenerate_rules (a : Automaton) (k : Nat) ( _hk : 0 < k)
    (hnb : ∀ col ∈ a.cells, ∀ cell ∈ col, cell.neighbors.length = k)
    (hx : a.cells.length = a.cell_count_x)
    (hy : ∀ col ∈ a.cells, col.length = a.cell_count_y) :
    (∀ cell : Cell, WolframRule.get_new_state 0 a cell = false)
  ∧ (a.rule = .wolfram 0 → (Automaton.step a).2 = 0)
  ∧ (∀ cell : Cell, cell.neighbors.length = k →
      WolframRule.get_new_state (2 ^ 2 ^ k - 1) a cell = true)
  ∧ (a.rule = .wolfram (2 ^ 2 ^ k - 1) →
      (Automaton.step a).2 = a.cell_count_x * a.cell_count_y) := by
  have h2k : 0 < 2 ^ k := Nat.pos_pow_of_pos k (by omega)
  have hzero : ∀ cell : Cell, WolframRule.get_new_state 0 a cell = false := by
    intro cell
    unfold WolframRule.get_new_state
    exact neg_index_all_false _ _ (int_to_bool_list_zero_all_false _)
  have hones : ∀ cell : Cell, cell.neighbors.length = k →
      WolframRule.get_new_state (2 ^ 2 ^ k - 1) a cell = true := by
    intro cell hc
    have hidx := bool_list_to_int_lt (cell.neighbors.map (fun p => (cellAt a p).is_alive))
    rw [List.length_map, hc] at hidx
    rw [wolfram_eval_testBit (2 ^ 2 ^ k - 1) k a cell hc
      (Nat.sub_lt (Nat.pos_pow_of_pos (2 ^ k) (by omega)) (by omega))]
    split <;> (rw [Nat.testBit_two_pow_sub_one]; simp only [decide_eq_true_eq]; omega)
  refine ⟨hzero, ?_, hones, ?_⟩
  · intro hrule
    simp only [Automaton.step]
    apply List.sum_eq_zero
    intro x hx2
    rw [List.mem_map] at hx2
    obtain ⟨col2, hcol2, rfl⟩ := hx2
    rw [List.mem_map] at hcol2
    obtain ⟨col, hcol, rfl⟩ := hcol2
    rw [List.length_eq_zero, List.filter_eq_nil_iff]
    intro c hc
    obtain ⟨c0, _, rfl⟩ := mem_stepColFrom_take a _ col 0 c (by simpa using hc)
    simp [hrule, Rule.get_new_state, hzero c0]
  · intro hrule
    simp only [Automaton.step]
    rcases Nat.eq_zero_or_pos a.cells.length with hlen0 | hlenpos
    · have hnil : a.cells = [] := List.eq_nil_of_length_eq_zero hlen0
      have hcx : a.cell_count_x = 0 := by omega
      rw [hnil, hcx]
      simp
    · have hm : (a.cells.getD 0 []).length = a.cell_count_y :=
        hy _ (getD_mem a.cells 0 hlenpos)
      have hconst : ∀ col2 ∈ a.cells.map
          (fun col => stepColFrom a ((a.cells.getD 0 []).length) 0 col),
          ((col2.take ((a.cells.getD 0 []).length)).filter (fun c => c.is_alive)).length
            = a.cell_count_y := by
        intro col2 hcol2
        rw [List.mem_map] at hcol2
        obtain ⟨col, hcol, rfl⟩ := hcol2
        have hclen : (stepColFrom a ((a.cells.getD 0 []).length) 0 col).length
            = col.length := stepColFrom_length a _ 0 col
        have hcy : col.length = a.cell_count_y := hy col hcol
        have htake : (stepColFrom a ((a.cells.getD 0 []).length) 0 col).take
            ((a.cells.getD 0 []).length)
              = stepColFrom a ((a.cells.getD 0 []).length) 0 col :=
          List.take_of_length_le (by omega)
        rw [htake, List.filter_eq_self.mpr ?_, hclen, hcy]
        intro c hc
        rw [← htake] at hc
        obtain ⟨c0, hc0, rfl⟩ := mem_stepColFrom_take a _ col 0 c (by simpa using hc)
        simp [hrule, Rule.get_new_state, hones c0 (hnb col hcol c0 hc0)]
      rw [sum_map_const_of _ a.cell_count_y _ hconst, List.length_map, hx]

/-- Claim C7 witness: the one-cell self-neighbor automaton (k = 1). -/
theorem wolfram_degenerate_rules_witness :
    (Automaton.step (selfLoopAuto (.wolfram 0) true)).2 = 0
  ∧ (Automaton.step (selfLoopAuto (.wolfram 3) true)).2
      = (selfLoopAuto (.wolfram 3) true).cell_count_x
          * (selfLoopAuto (.wolfram 3) true).cell_count_y := by
  constructor
  · exact (wolfram_degenerate_rules (selfLoopAuto (.wolfram 0) true) 1 (by decide)
      (by decide) (by decide) (by decide)).2.1 rfl
  · exact (wolfram_degenerate_rules (selfLoopAuto (.wolfram 3) true) 1 (by decide)
      (by decide) (by decide) (by decide)).2.2.2 rfl

/-- Claim C8: the Wolfram rule never consults the evaluated cell's own
state: two automata agreeing on the alive states at the cell's neighbor
coordinates (while free to differ at the cell's own coordinate), and any
two own-state values, give the same result. -/
theorem wolfram_ignores_own_state (rule_num : Nat) (a1 a2 : Automaton)
    (nbrs : List (Nat × Nat)) (d1 d2 : CellDirection) (alive1 alive2 : Bool)
    (h : ∀ p ∈ nbrs, (cellAt a1 p).is_alive = (cellAt a2 p).is_alive) :
    WolframRule.get_new_state rule_num a1
        { is_alive := alive1, dir := d1, neighbors := nbrs }
      = WolframRule.get_new_state rule_num a2
          { is_alive := alive2, dir := d2, neighbors := nbrs } := by
  show neg_index (int_to_bool_list rule_num (2 ^ nbrs.length))
      (bool_list_to_int (nbrs.map (fun p => (cellAt a1 p).is_alive)))
    = neg_index (int_to_bool_list rule_num (2 ^ nbrs.length))
      (bool_list_to_int (nbrs.map (fun p => (cellAt a2 p).is_alive)))
  rw [List.map_congr_left h]

/-- Claim C8 witness: two automata differing exactly in the evaluated
cell's own state. -/
theorem wolfram_ignores_own_state_witness :
    WolframRule.get_new_state 1 (pairAuto (.wolfram 1) true false)
        { is_alive := true, dir := .UPWARDS, neighbors := [(0, 1)] }
      = WolframRule.get_new_state 1 (pairAuto (.wolfram 1) false false)
          { is_alive := false, dir := .UPWARDS, neighbors := [(0, 1)] } :=
  wolfram_ignores_own_state 1 (pairAuto (.wolfram 1) true false)
    (pairAuto (.wolfram 1) false false) [(0, 1)] .UPWARDS .UPWARDS true false (by decide)

/-- Claim C9: the grid comparison reports two grids identical iff every
cell's alive state matches at every coordinate (orientation and
neighbor lists are ignored by Cell.__eq__), and applied to the pre-step
and post-step snapshots it holds iff the step left every alive state
unchanged, i.e. exactly at a period-1 repeat of the previous
generation. -/
theorem convergence_detection :
    (∀ g1 g2 : List (List Cell), cellsEq g1 g2 = true ↔
      (g1.length = g2.length ∧ ∀ i, i < g1.length →
        ((g1.getD i []).length = (g2.getD i []).length ∧
         ∀ j, j < (g1.getD i []).length →
           ((g1.getD i []).getD j default).is_alive
             = ((g2.getD i []).getD j default).is_alive)))
  ∧ (∀ a : Automaton, search_detects a = true ↔
      ∀ i, i < a.cells.length → ∀ j, j < (a.cells.getD i []).length →
        (cellAt (Automaton.step a).1 (i, j)).is_alive = (cellAt a (i, j)).is_alive) := by
  refine ⟨cellsEq_iff, ?_⟩
  intro a
  unfold search_detects
  rw [cellsEq_iff]
  constructor
  · rintro ⟨hlen, hall⟩ i hi j hj
    exact ((hall i hi).2 j hj).symm
  · intro h
    have hshape1 : (Automaton.step a).1.cells.length = a.cells.length := by
      simp [Automaton.step]
    refine ⟨hshape1.symm, ?_⟩
    intro i hi
    have hcolEq : ((Automaton.step a).1.cells.getD i [])
        = stepColFrom a ((a.cells.getD 0 []).length) 0 (a.cells.getD i []) := by
      simp only [Automaton.step]
      exact getD_map_cols _ _ i hi
    constructor
    · rw [hcolEq, stepColFrom_length]
    · intro j hj
      exact (h i hi j hj).symm

/-- Claim C9 witness: cells differing only in orientation and neighbor
lists compare equal, and a dead fixed-point automaton is detected. -/
theorem convergence_detection_witness :
    cellsEq [[{ is_alive := true, dir := .UPWARDS, neighbors := [] }]]
        [[{ is_alive := true, dir := .DOWNWARDS, neighbors := [(0, 0)] }]] = true
  ∧ search_detects (pairAuto (.lifelike [] []) false false) = true := by
  constructor
  · exact (convergence_detection.1 _ _).mpr (by decide)
  · exact (convergence_detection.2 (pairAuto (.lifelike [] []) false false)).mpr (by decide)

/-- Claim C10: int_to_bool_list returns exactly the requested length,
and bool_list_to_int inverts it, whenever the length is positive and at
least the bit length of the number. -/
theorem int_bool_list_roundtrip (n length : Nat) (hlen : 0 < length)
    (hn : n < 2 ^ length) :
    bool_list_to_int (int_to_bool_list n length) = n
  ∧ (int_to_bool_list n length).length = length := by
  refine ⟨?_, int_to_bool_list_length n length hlen hn⟩
  by_cases h : n = 0
  · subst h
    show bool_list_to_int (List.replicate (length - 1) false ++ [false]) = 0
    rw [bool_list_to_int_replicate_false]
    rfl
  · simp only [int_to_bool_list, if_neg h]
    rw [bool_list_to_int_replicate_false, bool_list_to_int_reverse_natBitsLE]

/-- Claim C10 witness. -/
theorem int_bool_list_roundtrip_witness :
    bool_list_to_int (int_to_bool_list 5 4) = 5
  ∧ (int_to_bool_list 5 4).length = 4 :=
  int_bool_list_roundtrip 5 4 (by decide) (by decide)

end TriCA
